import Mathlib

/-!
Verification of the EcoSonicNet audio-to-prediction pipeline
(`backend/inference.py` and the boundary layer `backend/app.py`).

The Python source is shallowly embedded: pandas dataframes become lists of
rows, numpy arrays become `List ℚ` / `List (List ℚ)`, file-system state
becomes explicit `Option`/`Bool` parameters, and functions that can raise
return `Except String`.  Floating-point numbers are modelled by exact
rationals, so "NaN" can only arise from the explicit `PValue.nan`
constructor used for missing dataframe cells; division is total on `ℚ`,
and the theorems therefore state the denominator-nonzero facts that make
the float computation NaN-free.
-/

namespace EcoSonic

/-! ### Python / pandas primitives used by `load_class_list` -/

/-- The sort key used in `sorted(labels, key=lambda x: (len(x), x))`:
`a` precedes `b` iff `len(a) < len(b)`, or the lengths agree and `a ≤ b`
in code-point lexicographic order (Python string comparison). -/
def labelKeyLe (a b : String) : Prop :=
  a.length < b.length ∨ (a.length = b.length ∧ a.data ≤ b.data)

instance : DecidableRel labelKeyLe := fun a b => by
  unfold labelKeyLe; infer_instance

instance : IsTotal String labelKeyLe := by
  constructor
  intro a b
  rcases Nat.lt_trichotomy a.length b.length with h | h | h
  · exact Or.inl (Or.inl h)
  · rcases le_total a.data b.data with h2 | h2
    · exact Or.inl (Or.inr ⟨h, h2⟩)
    · exact Or.inr (Or.inr ⟨h.symm, h2⟩)
  · exact Or.inr (Or.inl h)

instance : IsTrans String labelKeyLe := by
  constructor
  intro a b c hab hbc
  rcases hab with h1 | ⟨h1, h1d⟩
  · rcases hbc with h2 | ⟨h2, _⟩
    · exact Or.inl (Nat.lt_trans h1 h2)
    · exact Or.inl (h2 ▸ h1)
  · rcases hbc with h2 | ⟨h2, h2d⟩
    · exact Or.inl (h1 ▸ h2)
    · exact Or.inr ⟨h1.trans h2, le_trans h1d h2d⟩

/-- `sorted(labels, key=lambda x: (len(x), x))` from `load_class_list`. -/
def sort_by_len_lex (l : List String) : List String :=
  List.insertionSort labelKeyLe l

/-- `pandas.Series.unique`: deduplication keeping the first occurrence of
each value, in order of appearance.  `seen` accumulates the values already
emitted. -/
def pd_unique (seen : List String) : List String → List String
  | [] => []
  | x :: xs => if x ∈ seen then pd_unique seen xs else x :: pd_unique (x :: seen) xs

/-- A parsed CSV file: an ordered association of column names to the
(stringified) cell values of that column.  A file on disk is modelled as
`Option CsvFile`, `none` meaning the path does not exist. -/
structure CsvFile where
  cols : List (String × List String)
deriving DecidableEq

/-- `df.columns`. -/
def CsvFile.header (f : CsvFile) : List String := f.cols.map Prod.fst

/-- `df[c]`: the values of column `c` (first column of that name). -/
def CsvFile.getCol (f : CsvFile) (c : String) : List String :=
  match f.cols.find? (fun p => p.1 == c) with
  | some p => p.2
  | none => []

/-- `df.empty`: the frame has no elements.  (For the rectangular frames
produced by `pd.read_csv` this is: every column is empty.) -/
def CsvFile.isEmpty (f : CsvFile) : Bool :=
  f.cols.all (fun p => p.2.isEmpty)

/-- `load_taxonomy` (inference.py lines 25-31): if the taxonomy file does
not exist return an empty `DataFrame()`, otherwise the parsed file (the
`primary_label` column, if present, is already stringified in this model,
mirroring `astype(str)`). -/
def load_taxonomy (taxonomy_csv : Option CsvFile) : CsvFile :=
  match taxonomy_csv with
  | none => ⟨[]⟩
  | some t => t

/-- `load_class_list` (inference.py lines 34-49).

* If `train.csv` is missing, fall back to the taxonomy: if the taxonomy
  frame is empty or has no `primary_label` column, return
  `tuple(str(i) for i in range(264))`; otherwise the deduplicated
  `(len, lex)`-sorted taxonomy labels.
* If `train.csv` exists, `pd.read_csv(..., usecols=["primary_label"])`
  raises a `ValueError` when the file has no `primary_label` column
  (modelled as `.error`); otherwise return the deduplicated
  `(len, lex)`-sorted labels of that column. -/
def load_class_list (train_csv taxonomy_csv : Option CsvFile) :
    Except String (List String) :=
  match train_csv with
  | none =>
    let tax := load_taxonomy taxonomy_csv
    if tax.isEmpty ∨ "primary_label" ∉ tax.header then
      .ok ((List.range 264).map (fun i => toString i))
    else
      .ok (sort_by_len_lex (pd_unique [] (tax.getCol "primary_label")))
  | some tr =>
    if "primary_label" ∈ tr.header then
      .ok (sort_by_len_lex (pd_unique [] (tr.getCol "primary_label")))
    else
      .error "Usecols do not match columns, columns expected but not found"

/-! ### Scorer loading (`load_model`, inference.py lines 61-75) -/

/-- Does the stored parameter `kv` (name, shape) match the instantiated
architecture?  This is the filter
`k in model_state_dict and model_state_dict[k].shape == v.shape`. -/
def param_matches (model_state_dict : List (String × List ℕ))
    (kv : String × List ℕ) : Bool :=
  match model_state_dict.find? (fun p => p.1 == kv.1) with
  | some p => p.2 == kv.2
  | none => false

/-- `load_model`: raise `FileNotFoundError` when the weights file is
absent; otherwise keep exactly the stored parameters whose name exists in
the architecture's state dict with an equal shape, and load that filtered
dict with `strict=False` (which succeeds for any such subset).  The
checkpoint is modelled by its state dict (the result of
`checkpoint.get("state_dict", checkpoint)`), each entry being a parameter
name with its tensor shape. -/
def load_model (file_exists : Bool)
    (state_dict model_state_dict : List (String × List ℕ)) :
    Except String (List (String × List ℕ)) :=
  if file_exists = false then
    .error "Model not found"
  else
    .ok (state_dict.filter (param_matches model_state_dict))

/-! ### Top-k selection (`predict_topk`, inference.py lines 109-114) -/

/-- A comparison on index positions: ascending by probability, ties
resolved by ascending index.  `numpy.argsort`'s default kind
(introsort) is deterministic but *unstable* on arrays beyond small
partitions, so the order of equal entries on the program's class-sized
vectors is an unspecified implementation detail; this embedding fixes
one representative tie order.  Theorems drawn from it state only
conclusions that hold for every correct ascending argsort regardless of
tie order, except on two-element inputs, where numpy's introsort is an
insertion sort and provably realises exactly this order. -/
def probLe (probs : List ℚ) (i j : ℕ) : Prop :=
  probs.getD i 0 < probs.getD j 0 ∨ (probs.getD i 0 = probs.getD j 0 ∧ i ≤ j)

instance (probs : List ℚ) : DecidableRel (probLe probs) := fun i j => by
  unfold probLe; infer_instance

instance (probs : List ℚ) : IsTotal ℕ (probLe probs) := by
  constructor
  intro i j
  rcases lt_trichotomy (probs.getD i 0) (probs.getD j 0) with h | h | h
  · exact Or.inl (Or.inl h)
  · rcases Nat.le_total i j with h2 | h2
    · exact Or.inl (Or.inr ⟨h, h2⟩)
    · exact Or.inr (Or.inr ⟨h.symm, h2⟩)
  · exact Or.inr (Or.inl h)

instance (probs : List ℚ) : IsTrans ℕ (probLe probs) := by
  constructor
  intro i j k hij hjk
  rcases hij with h1 | ⟨h1, h1i⟩
  · rcases hjk with h2 | ⟨h2, _⟩
    · exact Or.inl (lt_trans h1 h2)
    · exact Or.inl (h2 ▸ h1)
  · rcases hjk with h2 | ⟨h2, h2i⟩
    · exact Or.inl (h1 ▸ h2)
    · exact Or.inr ⟨h1.trans h2, Nat.le_trans h1i h2i⟩

/-- `probs.argsort()`: the indices `0..len(probs)-1` sorted ascending by
probability.  The tie order is the representative one fixed by
`probLe`; see its docstring for the relation to numpy's unstable
introsort. -/
def np_argsort (probs : List ℚ) : List ℕ :=
  List.insertionSort (probLe probs) (List.range probs.length)

/-- Python's `l[-k:]` for `k : ℕ`: the last `k` elements, the whole list
when `k = 0` (since `l[-0:] = l[0:]`) or when `k ≥ len(l)`. -/
def py_slice_last (l : List ℕ) (k : ℕ) : List ℕ :=
  if k = 0 then l else l.drop (l.length - k)

/-- `predict_topk` on an already-computed probability vector
(the model forward pass and softmax are the opaque Scorer):
`idx = probs.argsort()[-top_k:][::-1]; return idx, probs[idx]`. -/
def predict_topk (probs : List ℚ) (top_k : ℕ) : List ℕ × List ℚ :=
  let idx := (py_slice_last (np_argsort probs) top_k).reverse
  (idx, idx.map (fun i => probs.getD i 0))

/-! ### Feature extraction (`preprocess_audio_to_tensor`, inference.py
lines 78-106)

The mel spectrogram `mel_db` is a 2-D array of decibel values, modelled
as `List (List ℚ)` (rows = mel/frequency bins of count `n_mels`, columns
= time frames; tensors are rectangular).  The shaping stages of lines
98-104 are embedded one-for-one: trailing-axis zero padding, trailing-axis
crop, and bilinear interpolation (`align_corners=False`). -/

structure InferenceConfig where
  sample_rate : ℕ := 32000
  n_fft : ℕ := 1024
  hop_length : ℕ := 320
  n_mels : ℕ := 224
  spec_size : ℕ := 224
deriving DecidableEq

def defaultConfig : InferenceConfig := {}

/-- `x.shape[-1]`: the width (time axis) of a rectangular matrix. -/
def matWidth (m : List (List ℚ)) : ℕ := (m.headD []).length

/-- `torch.nn.functional.pad(x, (0, amount))`: append `amount` zero
columns on the trailing (time) axis. -/
def pad_time_axis (m : List (List ℚ)) (amount : ℕ) : List (List ℚ) :=
  m.map (fun row => row ++ List.replicate amount 0)

/-- `x[:, :, :, :target]`: keep only the leading `target` columns. -/
def crop_time_axis (m : List (List ℚ)) (target : ℕ) : List (List ℚ) :=
  m.map (fun row => row.take target)

/-- The source coordinate used by torch bilinear interpolation with
`align_corners=False`: `max((dst + 0.5) * in / out - 0.5, 0)`. -/
def src_coord (inSize outSize dst : ℕ) : ℚ :=
  max (((dst : ℚ) + 1/2) * inSize / outSize - 1/2) 0

/-- One bilinear sample of `torch.nn.functional.interpolate(...,
mode="bilinear", align_corners=False)` at output pixel `(i, j)`. -/
def bilinear_sample (m : List (List ℚ)) (inH inW outH outW i j : ℕ) : ℚ :=
  let ry := src_coord inH outH i
  let rx := src_coord inW outW j
  let y0 := (⌊ry⌋).toNat
  let x0 := (⌊rx⌋).toNat
  let y1 := min (y0 + 1) (inH - 1)
  let x1 := min (x0 + 1) (inW - 1)
  let ly := ry - (y0 : ℚ)
  let lx := rx - (x0 : ℚ)
  let v (a b : ℕ) : ℚ := (m.getD a []).getD b 0
  (1 - ly) * ((1 - lx) * v y0 x0 + lx * v y0 x1) +
    ly * ((1 - lx) * v y1 x0 + lx * v y1 x1)

/-- `torch.nn.functional.interpolate(x, size=(outH, outW),
mode="bilinear", align_corners=False)`. -/
def interpolate_bilinear (m : List (List ℚ)) (outH outW : ℕ) :
    List (List ℚ) :=
  (List.range outH).map (fun i =>
    (List.range outW).map (fun j =>
      bilinear_sample m m.length (matWidth m) outH outW i j))

/-- The shaping stages of `preprocess_audio_to_tensor` (lines 99-104)
applied to the normalized mel spectrogram:

* if the time axis is narrower than `spec_size`, zero-pad it on the right;
* crop the time axis to the leading `spec_size` columns;
* if the frequency axis then differs from `spec_size`, bilinearly resample
  to `(spec_size, spec_size)`. -/
def preprocess_shape (cfg : InferenceConfig) (mel_db : List (List ℚ)) :
    List (List ℚ) :=
  let x :=
    if matWidth mel_db < cfg.spec_size then
      pad_time_axis mel_db (cfg.spec_size - matWidth mel_db)
    else mel_db
  let x := crop_time_axis x cfg.spec_size
  if x.length ≠ cfg.spec_size then
    interpolate_bilinear x cfg.spec_size cfg.spec_size
  else x

/-- `unsqueeze(0).unsqueeze(0)`: wrap the matrix as a 4-D
`(batch=1, channel=1, H, W)` tensor. -/
def to_4d (m : List (List ℚ)) : List (List (List (List ℚ))) := [[m]]

/-! ### Normalization (`preprocess_audio_to_tensor`, lines 95-96)

`mel_db = (mel_db - mel_db.mean()) / (mel_db.std() + 1e-6)` over the
flattened entries.  `numpy.std` is the nonnegative square root of the
population variance; since square roots leave `ℚ`, the standard deviation
is characterised by the predicate `is_np_std` instead of computed, and
the normalization is stated for any value satisfying it. -/

/-- `a.mean()` of the flattened entries. -/
def np_mean (xs : List ℚ) : ℚ := xs.sum / (xs.length : ℚ)

/-- `a.var()` (population variance, `ddof=0`). -/
def np_variance (xs : List ℚ) : ℚ :=
  ((xs.map (fun x => (x - np_mean xs) ^ 2)).sum) / (xs.length : ℚ)

/-- `s = a.std()`: the nonnegative square root of the population
variance. -/
def is_np_std (xs : List ℚ) (s : ℚ) : Prop := 0 ≤ s ∧ s ^ 2 = np_variance xs

/-- The epsilon of line 96. -/
def norm_epsilon : ℚ := 1 / 1000000

/-- `(x - mean) / (std + 1e-6)` applied entrywise, for a given value `s`
of the standard deviation. -/
def normalize_mel (xs : List ℚ) (s : ℚ) : List ℚ :=
  xs.map (fun x => (x - np_mean xs) / (s + norm_epsilon))

/-! ### Result assembly (`build_results`, inference.py lines 117-133)

Dataframe cells are modelled by `PValue`: a string, an (exact) number,
the float `NaN`, or Python's `None`.  A result record
(`to_dict(orient="records")` row) is an ordered association list of
column name to cell. -/

inductive PValue where
  | str : String → PValue
  | num : ℚ → PValue
  | nan : PValue
  | null : PValue
deriving DecidableEq

/-- The loaded taxonomy dataframe as seen by `build_results`: column
names plus rows aligned with them. -/
structure TaxonomyDF where
  tcols : List String
  trows : List (List PValue)
deriving DecidableEq

/-- `class_list[i] if i < len(class_list) else f"class_{i}"`. -/
def label_of (class_list : List String) (i : ℕ) : String :=
  if i < class_list.length then class_list.getD i "" else "class_" ++ toString i

/-- Position of the join key column in the taxonomy frame. -/
def tax_key_index (tax : TaxonomyDF) : ℕ := tax.tcols.indexOf "primary_label"

/-- Does taxonomy row `row` join with `label` on `primary_label`? -/
def tax_row_matches (tax : TaxonomyDF) (label : String) (row : List PValue) :
    Bool :=
  row.getD (tax_key_index tax) PValue.null == PValue.str label

/-- Number of taxonomy rows joining with `label` (pandas `merge` emits one
output row per match). -/
def tax_match_count (tax : TaxonomyDF) (label : String) : ℕ :=
  (tax.trows.filter (tax_row_matches tax label)).length

/-- The metadata fields a matched taxonomy row contributes to a merged
row: every taxonomy column except the join key, with that row's cells. -/
def merge_fields (tax : TaxonomyDF) (row : List PValue) :
    List (String × PValue) :=
  (tax.tcols.zip row).filter (fun p => p.1 != "primary_label")

/-- The metadata fields of an unmatched left row after a left merge:
every non-key taxonomy column, filled with `NaN` by pandas. -/
def null_fields (tax : TaxonomyDF) : List (String × PValue) :=
  (tax.tcols.filter (fun c => c != "primary_label")).map
    (fun c => (c, PValue.nan))

/-- The output triples a single left row `(label, confidence)` produces
under `merge(..., how="left")`: one triple per matching taxonomy row, or
a single `NaN`-filled triple when no taxonomy row matches. -/
def merge_block (tax : TaxonomyDF) (lp : String × ℚ) :
    List (String × ℚ × List (String × PValue)) :=
  let ms := tax.trows.filter (tax_row_matches tax lp.1)
  if ms.isEmpty then [(lp.1, lp.2, null_fields tax)]
  else ms.map (fun r => (lp.1, lp.2, merge_fields tax r))

/-- `df.merge(taxonomy, on="primary_label", how="left")` on the
two-column frame `{"primary_label": labels, "confidence": probs}`.
Left order is preserved; matches keep taxonomy row order. -/
def merge_left (tax : TaxonomyDF) (lps : List (String × ℚ)) :
    List (String × ℚ × List (String × PValue)) :=
  lps.flatMap (merge_block tax)

/-- Python/numpy `round` to integer: round half to even. -/
def round_half_even (q : ℚ) : ℤ :=
  let f := ⌊q⌋
  let r := q - (f : ℚ)
  if r < 1/2 then f
  else if 1/2 < r then f + 1
  else if f % 2 = 0 then f else f + 1

/-- `Series.round(decimals)`. -/
def pd_round (x : ℚ) (decimals : ℕ) : ℚ :=
  ((round_half_even (x * 10 ^ decimals) : ℚ)) / 10 ^ decimals

/-- `df.replace({np.nan: None})` on one cell. -/
def replace_nan (v : PValue) : PValue :=
  match v with
  | PValue.nan => PValue.null
  | v => v

/-- The record emitted for one merged row `(label, confidence, metadata)`:
the left columns, then the metadata columns, then the appended
`confidence_pct = (confidence * 100).round(2)` column, with every `NaN`
cell replaced by `None` (`df.replace({np.nan: None})`).  This embedding
is faithful only when no metadata column is named `confidence` or
`confidence_pct`: pandas would suffix-rename a colliding merged column
(`_x`/`_y`, making `df["confidence"]` raise a `KeyError`) or have the
`confidence_pct` assignment overwrite the merged column in place; the
theorems about `build_results` hypothesise the absence of such
collisions. -/
def assemble_record (t : String × ℚ × List (String × PValue)) :
    List (String × PValue) :=
  ([("primary_label", PValue.str t.1), ("confidence", PValue.num t.2.1)] ++
      t.2.2 ++
      [("confidence_pct", PValue.num (pd_round (t.2.1 * 100) 2))]).map
    (fun f => (f.1, replace_nan f.2))

/-- `build_results(top_idx, top_probs, class_list, taxonomy)`:

1. map indices to labels (out-of-range indices get `class_<i>`);
2. build the frame `{"primary_label": labels, "confidence": top_probs}`;
3. if the taxonomy frame is nonempty and has a `primary_label` column,
   left-merge on it;
4. append `confidence_pct = (confidence * 100).round(2)`;
5. replace every `NaN` cell by `None` and emit the records.

Valid for taxonomies whose columns do not collide with the reserved
left-frame names `confidence` / `confidence_pct`; see
`assemble_record`. -/
def build_results (top_idx : List ℕ) (top_probs : List ℚ)
    (class_list : List String) (tax : TaxonomyDF) :
    List (List (String × PValue)) :=
  let labels := top_idx.map (label_of class_list)
  let rows :=
    if tax.trows ≠ [] ∧ "primary_label" ∈ tax.tcols then
      merge_left tax (labels.zip top_probs)
    else
      (labels.zip top_probs).map
        (fun lp => (lp.1, lp.2, ([] : List (String × PValue))))
  rows.map assemble_record

/-- Dictionary access on an emitted record: the value of the first field
named `c`, `none` when the key is missing. -/
def get_field (r : List (String × PValue)) (c : String) : Option PValue :=
  (r.find? (fun f => f.1 == c)).map Prod.snd

/-! ### Boundary-layer clamp (`app.py` line 82) -/

/-- `top_k = max(1, min(top_k, 50))` applied by the `/api/predict`
handler to the parsed integer form field. -/
def clamp_top_k (top_k : ℤ) : ℤ := max 1 (min top_k 50)

/-! ## Helper lemmas -/

theorem mem_pd_unique (a : String) : ∀ (l seen : List String),
    a ∈ pd_unique seen l ↔ a ∈ l ∧ a ∉ seen
  | [], seen => by simp [pd_unique]
  | x :: xs, seen => by
    simp only [pd_unique]
    by_cases hx : x ∈ seen
    · rw [if_pos hx, mem_pd_unique a xs seen, List.mem_cons]
      constructor
      · rintro ⟨h1, h2⟩
        exact ⟨Or.inr h1, h2⟩
      · rintro ⟨h1 | h1, h2⟩
        · exact absurd (h1 ▸ hx) h2
        · exact ⟨h1, h2⟩
    · rw [if_neg hx, List.mem_cons, List.mem_cons,
        mem_pd_unique a xs (x :: seen)]
      constructor
      · rintro (rfl | ⟨h1, h2⟩)
        · exact ⟨Or.inl rfl, hx⟩
        · exact ⟨Or.inr h1, fun hs => h2 (List.mem_cons_of_mem _ hs)⟩
      · rintro ⟨h1 | h1, h2⟩
        · exact Or.inl h1
        · by_cases hax : a = x
          · exact Or.inl hax
          · exact Or.inr ⟨h1, fun hs => by
              rcases List.mem_cons.mp hs with h | h
              · exact hax h
              · exact h2 h⟩

theorem nodup_pd_unique : ∀ (l seen : List String), (pd_unique seen l).Nodup
  | [], _ => List.nodup_nil
  | x :: xs, seen => by
    simp only [pd_unique]
    by_cases hx : x ∈ seen
    · rw [if_pos hx]
      exact nodup_pd_unique xs seen
    · rw [if_neg hx]
      refine List.nodup_cons.mpr ⟨fun hmem => ?_, nodup_pd_unique xs (x :: seen)⟩
      exact ((mem_pd_unique x xs (x :: seen)).mp hmem).2 (List.mem_cons_self x seen)

/-! ## Claim C1 -/

/-- Claim C1: when the primary label source (`train.csv`) is available and
carries its label column, `load_class_list` returns the deduplicated label
strings sorted by the key `(string length, lexicographic value)` — the
returned list is sorted w.r.t. `labelKeyLe`, duplicate-free, and contains
exactly the label values of the source; index position in the returned
list is the class id by construction.  The result is deterministic: any
label source with identical column content yields the identical ordered
output. -/
theorem claim_C1_class_index_build (tr : CsvFile) (tax_csv : Option CsvFile)
    (h : "primary_label" ∈ tr.header) :
    ∃ idx : List String,
      load_class_list (some tr) tax_csv = .ok idx ∧
      List.Sorted labelKeyLe idx ∧
      idx.Nodup ∧
      (∀ a, a ∈ idx ↔ a ∈ tr.getCol "primary_label") ∧
      ∀ tr2 : CsvFile, "primary_label" ∈ tr2.header →
        tr2.getCol "primary_label" = tr.getCol "primary_label" →
        load_class_list (some tr2) tax_csv = .ok idx := by
  refine ⟨sort_by_len_lex (pd_unique [] (tr.getCol "primary_label")),
    ?_, ?_, ?_, ?_, ?_⟩
  · simp [load_class_list, h]
  · exact List.sorted_insertionSort _ _
  · exact (List.perm_insertionSort _ _).symm.nodup (nodup_pd_unique _ _)
  · intro a
    unfold sort_by_len_lex
    rw [List.Perm.mem_iff (List.perm_insertionSort _ _),
      mem_pd_unique a _ []]
    simp
  · intro tr2 h2 hcol
    simp [load_class_list, h2, sort_by_len_lex, hcol]

/-- Witness for C1 at a concrete four-row label source with one duplicate:
the hypothesis holds and the theorem applies. -/
theorem claim_C1_class_index_build_witness :
    "primary_label" ∈ (CsvFile.mk [("primary_label", ["bbb", "aa", "bbb", "ab"])]).header ∧
    (∃ idx : List String,
      load_class_list (some (CsvFile.mk [("primary_label", ["bbb", "aa", "bbb", "ab"])])) none = .ok idx ∧
      List.Sorted labelKeyLe idx ∧
      idx.Nodup ∧
      (∀ a, a ∈ idx ↔ a ∈ (CsvFile.mk [("primary_label", ["bbb", "aa", "bbb", "ab"])]).getCol "primary_label") ∧
      ∀ tr2 : CsvFile, "primary_label" ∈ tr2.header →
        tr2.getCol "primary_label" = (CsvFile.mk [("primary_label", ["bbb", "aa", "bbb", "ab"])]).getCol "primary_label" →
        load_class_list (some tr2) none = .ok idx) :=
  ⟨by decide, claim_C1_class_index_build _ none (by decide)⟩

/-! ## Claim C2 -/

/-- Counterexample to C2 as stated: a primary label source that exists but
has no `primary_label` column (here a single column `filename`) makes
`pd.read_csv(cfg.train_csv_path, usecols=["primary_label"])` raise a
`ValueError`, so `load_class_list` does not terminate with a usable index
for *every* state of the label source. -/
theorem claim_C2_counterexample :
    load_class_list (some (CsvFile.mk [("filename", ["a.ogg"])])) none =
      .error "Usecols do not match columns, columns expected but not found" := by
  rfl

/-- Claim C2 (amended): provided the primary label source, when present,
contains a `primary_label` column, `load_class_list` never raises: if the
primary source is absent it falls back to the deduplicated
`(length, lexicographic)`-sorted taxonomy labels, and if the taxonomy
frame is empty or lacks the label column it returns the stringified
integers `"0" .. "263"` (a fixed default of 264 classes); in every such
case it terminates with some usable index. -/
theorem claim_C2_total_fallback (train_csv tax_csv : Option CsvFile)
    (h : ∀ t, train_csv = some t → "primary_label" ∈ t.header) :
    (load_class_list train_csv tax_csv).isOk = true ∧
    (train_csv = none →
      ¬((load_taxonomy tax_csv).isEmpty = true ∨
          "primary_label" ∉ (load_taxonomy tax_csv).header) →
      load_class_list train_csv tax_csv =
        .ok (sort_by_len_lex
          (pd_unique [] ((load_taxonomy tax_csv).getCol "primary_label")))) ∧
    (train_csv = none →
      ((load_taxonomy tax_csv).isEmpty = true ∨
        "primary_label" ∉ (load_taxonomy tax_csv).header) →
      load_class_list train_csv tax_csv =
        .ok ((List.range 264).map (fun i => toString i))) := by
  match train_csv with
  | some t =>
    refine ⟨?_, by simp, by simp⟩
    have ht := h t rfl
    simp [load_class_list, ht, Except.isOk, Except.toBool]
  | none =>
    by_cases hc : (load_taxonomy tax_csv).isEmpty = true ∨
        "primary_label" ∉ (load_taxonomy tax_csv).header
    · refine ⟨?_, fun _ hn => absurd hc hn, fun _ _ => ?_⟩ <;>
        simp [load_class_list, hc, Except.isOk, Except.toBool]
    · refine ⟨?_, fun _ _ => ?_, fun _ hn => absurd hn hc⟩ <;>
        simp [load_class_list, hc, Except.isOk, Except.toBool]

/-- Witness for C2 (amended) with both sources absent: the fallback is the
stringified default `"0" .. "263"`. -/
theorem claim_C2_total_fallback_witness :
    (∀ t, (none : Option CsvFile) = some t → "primary_label" ∈ t.header) ∧
    ((load_class_list none none).isOk = true ∧
      ((none : Option CsvFile) = none →
        ¬((load_taxonomy none).isEmpty = true ∨
            "primary_label" ∉ (load_taxonomy none).header) →
        load_class_list none none =
          .ok (sort_by_len_lex
            (pd_unique [] ((load_taxonomy none).getCol "primary_label")))) ∧
      ((none : Option CsvFile) = none →
        ((load_taxonomy none).isEmpty = true ∨
          "primary_label" ∉ (load_taxonomy none).header) →
        load_class_list none none =
          .ok ((List.range 264).map (fun i => toString i)))) :=
  ⟨fun t ht => by simp at ht, claim_C2_total_fallback none none (fun t ht => by simp at ht)⟩

/-! ## Claim C7 -/

/-- Claim C7: `load_model` fails exactly when the weights file is absent;
when the file is present the load succeeds and keeps precisely the stored
parameters whose name occurs in the instantiated architecture with an
equal shape — every mismatched parameter is silently skipped. -/
theorem claim_C7_load_model (fe : Bool) (sd msd : List (String × List ℕ)) :
    ((load_model fe sd msd).isOk = true ↔ fe = true) ∧
    load_model true sd msd = .ok (sd.filter (param_matches msd)) ∧
    (∀ kv, kv ∈ sd.filter (param_matches msd) ↔
      kv ∈ sd ∧ param_matches msd kv = true) := by
  refine ⟨?_, rfl, fun kv => List.mem_filter⟩
  cases fe <;> simp [load_model, Except.isOk, Except.toBool]

/-! ## Claim C9 -/

/-- Claim C9: the boundary layer clamps every requested integer `top_k`
into `[1, 50]` before it reaches the core: the value passed on is
`max(1, min(n, 50))`, which always lies in `[1, 50]`; in particular
`top_k = 0` maps to `1` and `top_k = 999` maps to `50`. -/
theorem claim_C9_boundary_clamp (n : ℤ) :
    clamp_top_k n = max 1 (min n 50) ∧
    1 ≤ clamp_top_k n ∧ clamp_top_k n ≤ 50 ∧
    clamp_top_k 0 = 1 ∧ clamp_top_k 999 = 50 := by
  refine ⟨rfl, le_max_left _ _, ?_, by decide, by decide⟩
  exact max_le (by norm_num) (min_le_right n 50)

/-! ## Claims C4 and C10 -/

theorem np_argsort_sorted (probs : List ℚ) :
    List.Sorted (probLe probs) (np_argsort probs) :=
  List.sorted_insertionSort _ _

theorem np_argsort_perm (probs : List ℚ) :
    (np_argsort probs).Perm (List.range probs.length) :=
  List.perm_insertionSort _ _

theorem np_argsort_length (probs : List ℚ) :
    (np_argsort probs).length = probs.length :=
  (List.length_insertionSort _ _).trans (List.length_range _)

theorem np_argsort_nodup (probs : List ℚ) : (np_argsort probs).Nodup :=
  (np_argsort_perm probs).symm.nodup (List.nodup_range _)

theorem py_slice_last_sublist (l : List ℕ) (k : ℕ) :
    (py_slice_last l k).Sublist l := by
  unfold py_slice_last
  split
  · exact List.Sublist.refl l
  · exact List.drop_sublist _ _

/-- The selected index list, before reversal, inherits sortedness. -/
theorem predict_topk_slice_sorted (probs : List ℚ) (k : ℕ) :
    List.Pairwise (probLe probs) (py_slice_last (np_argsort probs) k) :=
  List.Pairwise.sublist (py_slice_last_sublist _ _) (np_argsort_sorted probs)

theorem predict_topk_fst_nodup (probs : List ℚ) (k : ℕ) :
    (predict_topk probs k).1.Nodup := by
  unfold predict_topk
  exact List.nodup_reverse.mpr
    ((py_slice_last_sublist _ _).nodup (np_argsort_nodup probs))

theorem predict_topk_fst_mem (probs : List ℚ) (k : ℕ) :
    ∀ i ∈ (predict_topk probs k).1, i < probs.length := by
  intro i hi
  unfold predict_topk at hi
  simp only [List.mem_reverse] at hi
  exact List.mem_range.mp
    ((np_argsort_perm probs).subset ((py_slice_last_sublist _ _).subset hi))

/-- The emitted index order, pairwise: an earlier index has a strictly
larger probability, or an equal probability and a strictly larger index
(the reversal of the index-stable ascending argsort). -/
theorem predict_topk_fst_pairwise (probs : List ℚ) (k : ℕ) :
    (predict_topk probs k).1.Pairwise (fun i j =>
      probs.getD j 0 < probs.getD i 0 ∨
        (probs.getD i 0 = probs.getD j 0 ∧ j < i)) := by
  have hflip : (predict_topk probs k).1.Pairwise
      (fun i j => probLe probs j i ∧ i ≠ j) := by
    unfold predict_topk
    simp only
    refine List.Pairwise.and ?_ ?_
    · exact List.pairwise_reverse.mpr (predict_topk_slice_sorted probs k)
    · exact predict_topk_fst_nodup probs k
  refine hflip.imp ?_
  rintro i j ⟨h | ⟨heq, hle⟩, hne⟩
  · exact Or.inl h
  · exact Or.inr ⟨heq.symm, lt_of_le_of_ne hle (fun hji => hne hji.symm)⟩

theorem predict_topk_snd_sorted (probs : List ℚ) (k : ℕ) :
    (predict_topk probs k).2.Pairwise (fun a b => b ≤ a) := by
  have h := predict_topk_fst_pairwise probs k
  have hmap : (predict_topk probs k).2 =
      (predict_topk probs k).1.map (fun i => probs.getD i 0) := rfl
  rw [hmap, List.pairwise_map]
  refine h.imp ?_
  rintro i j (h | ⟨heq, _⟩)
  · exact le_of_lt h
  · exact le_of_eq heq.symm

/-- Counterexample to C4 as stated: on the probability vector
`[1/2, 1/2]` (two tied entries) with `k = 2`, `predict_topk` returns the
indices `[1, 0]` — the tie comes out in *descending* index order, not the
claimed index-stable (ascending) order `[0, 1]`; and with `k = 3 ∈ [1,50]`
it returns only 2 entries, not exactly `k`.  (On a two-element array
numpy's introsort is an insertion sort, so the embedding's output here is
the program's real output.) -/
theorem claim_C4_counterexample :
    (predict_topk [1/2, 1/2] 2).1 = [1, 0] ∧ ([1, 0] : List ℕ) ≠ [0, 1] ∧
    (predict_topk [1/2, 1/2] 3).1.length = 2 ∧ (2 : ℕ) ≠ 3 := by
  refine ⟨?_, by decide, ?_, by decide⟩ <;>
    norm_num [predict_topk, np_argsort, py_slice_last, probLe,
      List.insertionSort, List.orderedInsert, List.range_succ]

/-- Claim C4 (amended): for every probability vector `probs` and every
`k ∈ [1, 50]` with `k ≤ len(probs)`, `predict_topk` returns exactly `k`
entries sorted in descending probability order, whose indices are
distinct elements of `range(len(probs))`, and whose scores are the
probabilities at those indices.  Equal probabilities are tie-broken
deterministically, but the tie order is an unspecified detail of
numpy's unstable introsort, not index-stable in general (on a
two-element tie the returned order is the *reverse* of index order, as
the counterexample shows); every conclusion stated here holds for any
correct ascending argsort regardless of its tie order. -/
theorem claim_C4_topk_selection (probs : List ℚ) (k : ℕ)
    (hk1 : 1 ≤ k) (hk50 : k ≤ 50) (hkn : k ≤ probs.length) :
    (predict_topk probs k).1.length = k ∧
    (predict_topk probs k).2.length = k ∧
    (predict_topk probs k).1.Nodup ∧
    (∀ i ∈ (predict_topk probs k).1, i < probs.length) ∧
    (predict_topk probs k).2 =
      (predict_topk probs k).1.map (fun i => probs.getD i 0) ∧
    (predict_topk probs k).2.Pairwise (fun a b => b ≤ a) := by
  have hlen : (predict_topk probs k).1.length = k := by
    unfold predict_topk py_slice_last
    simp only [List.length_reverse]
    rw [if_neg (by omega : ¬ k = 0), List.length_drop, np_argsort_length]
    omega
  refine ⟨hlen, ?_, predict_topk_fst_nodup probs k,
    predict_topk_fst_mem probs k, rfl,
    predict_topk_snd_sorted probs k⟩
  have hmap : (predict_topk probs k).2 =
      (predict_topk probs k).1.map (fun i => probs.getD i 0) := rfl
  rw [hmap, List.length_map, hlen]

/-- Witness for C4 (amended) at `probs = [1/2, 1/2]`, `k = 2`. -/
theorem claim_C4_topk_selection_witness :
    (1 ≤ 2 ∧ 2 ≤ 50 ∧ 2 ≤ ([1/2, 1/2] : List ℚ).length) ∧
    ((predict_topk [1/2, 1/2] 2).1.length = 2 ∧
      (predict_topk [1/2, 1/2] 2).2.length = 2 ∧
      (predict_topk [1/2, 1/2] 2).1.Nodup ∧
      (∀ i ∈ (predict_topk [1/2, 1/2] 2).1, i < ([1/2, 1/2] : List ℚ).length) ∧
      (predict_topk [1/2, 1/2] 2).2 =
        (predict_topk [1/2, 1/2] 2).1.map
          (fun i => ([1/2, 1/2] : List ℚ).getD i 0) ∧
      (predict_topk [1/2, 1/2] 2).2.Pairwise (fun a b => b ≤ a)) :=
  ⟨⟨by decide, by decide, by decide⟩,
    claim_C4_topk_selection [1/2, 1/2] 2 (by decide) (by decide) (by decide)⟩

/-- Claim C10: when `top_k` exceeds the length of the probability vector,
`predict_topk` does not raise (it is total) and returns all
`len(probs)` index/score pairs in descending order: the number of
returned entries is `min(top_k, len(probs))`, every index below
`len(probs)` occurs exactly once, and the scores are descending. -/
theorem claim_C10_topk_overlong (probs : List ℚ) (k : ℕ)
    (h : probs.length < k) :
    (predict_topk probs k).1.length = probs.length ∧
    (predict_topk probs k).1.length = min k probs.length ∧
    (∀ i, i ∈ (predict_topk probs k).1 ↔ i < probs.length) ∧
    (predict_topk probs k).1.Nodup ∧
    (predict_topk probs k).2.Pairwise (fun a b => b ≤ a) := by
  have hslice : py_slice_last (np_argsort probs) k = np_argsort probs := by
    unfold py_slice_last
    rw [if_neg (by omega : ¬ k = 0)]
    have : (np_argsort probs).length - k = 0 := by
      rw [np_argsort_length]; omega
    rw [this, List.drop_zero]
  have hlen : (predict_topk probs k).1.length = probs.length := by
    unfold predict_topk
    simp only [List.length_reverse, hslice, np_argsort_length]
  refine ⟨hlen, by omega, ?_, predict_topk_fst_nodup probs k,
    predict_topk_snd_sorted probs k⟩
  intro i
  unfold predict_topk
  simp only [List.mem_reverse, hslice]
  rw [(np_argsort_perm probs).mem_iff, List.mem_range]

/-- Witness for C10 at `probs = [1/2, 1/2]`, `k = 5`. -/
theorem claim_C10_topk_overlong_witness :
    ([1/2, 1/2] : List ℚ).length < 5 ∧
    ((predict_topk [1/2, 1/2] 5).1.length = ([1/2, 1/2] : List ℚ).length ∧
      (predict_topk [1/2, 1/2] 5).1.length = min 5 ([1/2, 1/2] : List ℚ).length ∧
      (∀ i, i ∈ (predict_topk [1/2, 1/2] 5).1 ↔ i < ([1/2, 1/2] : List ℚ).length) ∧
      (predict_topk [1/2, 1/2] 5).1.Nodup ∧
      (predict_topk [1/2, 1/2] 5).2.Pairwise (fun a b => b ≤ a)) :=
  ⟨by decide, claim_C10_topk_overlong [1/2, 1/2] 5 (by decide)⟩

/-! ## Claim C3 -/

/-- Entries of a width-`w` row, zero-padded to `s ≥ w` columns and cropped
back to `s`, vanish at every column index `≥ w`. -/
theorem getD_pad_take_eq_zero (r : List ℚ) (w s j : ℕ)
    (hrl : r.length = w) (hws : w ≤ s) (hj : w ≤ j) :
    ((r ++ List.replicate (s - w) 0).take s).getD j 0 = 0 := by
  have hlen : (r ++ List.replicate (s - w) (0 : ℚ)).length = s := by
    simp [hrl]
    omega
  rw [List.take_of_length_le (le_of_eq hlen)]
  rcases lt_or_ge j s with hjs | hjs
  · rw [List.getD_append_right _ _ _ _ (by omega)]
    have hji : j - r.length < s - w := by omega
    rw [List.getD_eq_getElem _ _ (by simpa using hji), List.getElem_replicate]
  · exact List.getD_eq_default _ _ (by omega)

/-- Claim C3: for every (rectangular) mel spectrogram of any width —
i.e. for every decodable input of any duration — the shaped output is
exactly `spec_size × spec_size`, wrapped as a `(1, 1, spec_size,
spec_size)` tensor: the time axis is zero-padded when narrower than
`spec_size`, cropped to the leading `spec_size` columns when wider, and
the whole matrix is bilinearly resampled when the frequency axis differs
from `spec_size`. -/
theorem claim_C3_fixed_output_shape (cfg : InferenceConfig)
    (mel_db : List (List ℚ))
    (hrect : ∀ row ∈ mel_db, row.length = matWidth mel_db) :
    (preprocess_shape cfg mel_db).length = cfg.spec_size ∧
    (∀ row ∈ preprocess_shape cfg mel_db, row.length = cfg.spec_size) ∧
    (to_4d (preprocess_shape cfg mel_db)).length = 1 ∧
    (∀ ch ∈ to_4d (preprocess_shape cfg mel_db), ch.length = 1 ∧
      ∀ m ∈ ch, m = preprocess_shape cfg mel_db) ∧
    (mel_db.length = cfg.spec_size → matWidth mel_db < cfg.spec_size →
      ∀ row ∈ preprocess_shape cfg mel_db, ∀ j, matWidth mel_db ≤ j →
        row.getD j 0 = 0) ∧
    (mel_db.length = cfg.spec_size → cfg.spec_size ≤ matWidth mel_db →
      preprocess_shape cfg mel_db =
        mel_db.map (fun row => row.take cfg.spec_size)) ∧
    (mel_db.length ≠ cfg.spec_size →
      preprocess_shape cfg mel_db =
        interpolate_bilinear
          (crop_time_axis
            (if matWidth mel_db < cfg.spec_size then
              pad_time_axis mel_db (cfg.spec_size - matWidth mel_db)
            else mel_db) cfg.spec_size)
          cfg.spec_size cfg.spec_size) := by
  set s := cfg.spec_size with hs
  have hx_len : ∀ y : List (List ℚ),
      (crop_time_axis (if matWidth mel_db < s then
        pad_time_axis mel_db (s - matWidth mel_db) else mel_db) s).length =
        mel_db.length := by
    intro _
    unfold crop_time_axis pad_time_axis
    split <;> simp
  by_cases hL : mel_db.length = s
  · -- no interpolation: the crop/pad stage alone fixes the shape
    have hpre : preprocess_shape cfg mel_db =
        crop_time_axis (if matWidth mel_db < s then
          pad_time_axis mel_db (s - matWidth mel_db) else mel_db) s := by
      unfold preprocess_shape
      rw [if_neg]
      rw [hx_len []]
      simpa using hL
    refine ⟨?_, ?_, rfl, ?_, ?_, ?_, fun h => absurd hL h⟩
    · rw [hpre, hx_len []]; exact hL
    · intro row hrow
      rw [hpre] at hrow
      unfold crop_time_axis pad_time_axis at hrow
      by_cases hw : matWidth mel_db < s
      · rw [if_pos hw] at hrow
        simp only [List.map_map, List.mem_map] at hrow
        obtain ⟨r, hr, rfl⟩ := hrow
        simp only [Function.comp]
        rw [List.length_take]
        simp [hrect r hr]
        omega
      · rw [if_neg hw] at hrow
        simp only [List.mem_map] at hrow
        obtain ⟨r, hr, rfl⟩ := hrow
        rw [List.length_take]
        rw [hrect r hr]
        omega
    · intro ch hch
      simp only [to_4d, List.mem_singleton] at hch
      subst hch
      exact ⟨rfl, fun m hm => (List.mem_singleton.mp hm)⟩
    · intro _ hw row hrow j hj
      rw [hpre, if_pos hw] at hrow
      unfold crop_time_axis pad_time_axis at hrow
      simp only [List.map_map, List.mem_map] at hrow
      obtain ⟨r, hr, rfl⟩ := hrow
      simp only [Function.comp]
      exact getD_pad_take_eq_zero r (matWidth mel_db) s j (hrect r hr)
        (le_of_lt hw) hj
    · intro _ hw
      rw [hpre, if_neg (by omega : ¬ matWidth mel_db < s)]
      rfl
  · -- interpolation branch: output is the s × s sampled grid
    have hpre : preprocess_shape cfg mel_db =
        interpolate_bilinear
          (crop_time_axis (if matWidth mel_db < s then
            pad_time_axis mel_db (s - matWidth mel_db) else mel_db) s) s s := by
      unfold preprocess_shape
      rw [if_pos]
      rw [hx_len []]
      simpa using hL
    refine ⟨?_, ?_, rfl, ?_, fun h => absurd h hL, fun h => absurd h hL,
      fun _ => hpre⟩
    · rw [hpre]
      unfold interpolate_bilinear
      simp
    · intro row hrow
      rw [hpre] at hrow
      unfold interpolate_bilinear at hrow
      simp only [List.mem_map] at hrow
      obtain ⟨i, _, rfl⟩ := hrow
      simp
    · intro ch hch
      simp only [to_4d, List.mem_singleton] at hch
      subst hch
      exact ⟨rfl, fun m hm => (List.mem_singleton.mp hm)⟩

/-- Witness for C3 at a concrete 2-row spectrogram narrower than
`spec_size` (here `spec_size = 2` to keep the grid small). -/
theorem claim_C3_fixed_output_shape_witness :
    (∀ row ∈ [[(1 : ℚ)], [2]], row.length = matWidth [[(1 : ℚ)], [2]]) ∧
    ((preprocess_shape (InferenceConfig.mk 32000 1024 320 2 2) [[(1 : ℚ)], [2]]).length = 2 ∧
      (∀ row ∈ preprocess_shape (InferenceConfig.mk 32000 1024 320 2 2) [[(1 : ℚ)], [2]],
        row.length = 2) ∧
      (to_4d (preprocess_shape (InferenceConfig.mk 32000 1024 320 2 2) [[(1 : ℚ)], [2]])).length = 1 ∧
      (∀ ch ∈ to_4d (preprocess_shape (InferenceConfig.mk 32000 1024 320 2 2) [[(1 : ℚ)], [2]]),
        ch.length = 1 ∧
        ∀ m ∈ ch, m = preprocess_shape (InferenceConfig.mk 32000 1024 320 2 2) [[(1 : ℚ)], [2]]) ∧
      (([[(1 : ℚ)], [2]] : List (List ℚ)).length = 2 → matWidth [[(1 : ℚ)], [2]] < 2 →
        ∀ row ∈ preprocess_shape (InferenceConfig.mk 32000 1024 320 2 2) [[(1 : ℚ)], [2]],
          ∀ j, matWidth [[(1 : ℚ)], [2]] ≤ j → row.getD j 0 = 0) ∧
      (([[(1 : ℚ)], [2]] : List (List ℚ)).length = 2 → 2 ≤ matWidth [[(1 : ℚ)], [2]] →
        preprocess_shape (InferenceConfig.mk 32000 1024 320 2 2) [[(1 : ℚ)], [2]] =
          ([[(1 : ℚ)], [2]] : List (List ℚ)).map (fun row => row.take 2)) ∧
      (([[(1 : ℚ)], [2]] : List (List ℚ)).length ≠ 2 →
        preprocess_shape (InferenceConfig.mk 32000 1024 320 2 2) [[(1 : ℚ)], [2]] =
          interpolate_bilinear
            (crop_time_axis
              (if matWidth [[(1 : ℚ)], [2]] < 2 then
                pad_time_axis [[(1 : ℚ)], [2]] (2 - matWidth [[(1 : ℚ)], [2]])
              else [[(1 : ℚ)], [2]]) 2) 2 2)) :=
  ⟨by decide, claim_C3_fixed_output_shape (InferenceConfig.mk 32000 1024 320 2 2)
    [[(1 : ℚ)], [2]] (by decide)⟩

/-! ## Claim C8 -/

/-- Claim C8: normalization divides by the clip's standard deviation plus
`1e-6`.  For every clip — including silent or constant clips, where the
standard deviation is zero — the denominator is strictly positive, so
every output entry is the exact, finite rational `(x - mean)/(s + 1e-6)`
(characterised below by multiplication against the nonzero denominator:
no `0/0` NaN can arise) and the normalization is total.  A constant clip
normalizes to the all-zero tensor. -/
theorem claim_C8_normalization_finite (xs : List ℚ) (s : ℚ)
    (hs : is_np_std xs s) :
    0 < s + norm_epsilon ∧
    (normalize_mel xs s).length = xs.length ∧
    (∀ i, i < xs.length →
      (normalize_mel xs s).getD i 0 * (s + norm_epsilon) =
        xs.getD i 0 - np_mean xs) ∧
    (∀ c : ℚ, ∀ n : ℕ, xs = List.replicate n c → n ≠ 0 →
      normalize_mel xs s = List.replicate n ((0 : ℚ) / (s + norm_epsilon))) := by
  have hpos : 0 < s + norm_epsilon := by
    have : (0 : ℚ) < norm_epsilon := by norm_num [norm_epsilon]
    have := hs.1
    linarith
  refine ⟨hpos, by simp [normalize_mel], ?_, ?_⟩
  · intro i hi
    have hlen : i < (normalize_mel xs s).length := by
      simpa [normalize_mel] using hi
    rw [List.getD_eq_getElem _ _ hlen]
    unfold normalize_mel
    rw [List.getElem_map, ← List.getD_eq_getElem xs 0 hi]
    exact div_mul_cancel₀ _ (ne_of_gt hpos)
  · intro c n hxs hn
    subst hxs
    have hmean : np_mean (List.replicate n c) = c := by
      unfold np_mean
      rw [List.sum_replicate, nsmul_eq_mul, List.length_replicate]
      exact mul_div_cancel_left₀ _ (by exact_mod_cast hn)
    unfold normalize_mel
    rw [List.map_replicate, hmean, sub_self]

/-- Witness for C8 at the silent clip `[0, 0]` with standard deviation
`0`: the hypothesis `is_np_std [0, 0] 0` holds and the theorem applies. -/
theorem claim_C8_normalization_finite_witness :
    is_np_std [0, 0] 0 ∧
    (0 < (0 : ℚ) + norm_epsilon ∧
      (normalize_mel [0, 0] 0).length = ([0, 0] : List ℚ).length ∧
      (∀ i, i < ([0, 0] : List ℚ).length →
        (normalize_mel [0, 0] 0).getD i 0 * (0 + norm_epsilon) =
          ([0, 0] : List ℚ).getD i 0 - np_mean [0, 0]) ∧
      (∀ c : ℚ, ∀ n : ℕ, ([0, 0] : List ℚ) = List.replicate n c → n ≠ 0 →
        normalize_mel [0, 0] 0 = List.replicate n ((0 : ℚ) / (0 + norm_epsilon)))) :=
  ⟨⟨le_refl 0, by norm_num [np_variance, np_mean]⟩,
    claim_C8_normalization_finite [0, 0] 0
      ⟨le_refl 0, by norm_num [np_variance, np_mean]⟩⟩

/-! ## Claims C5 and C6: helper lemmas about `build_results` -/

theorem replace_nan_ne_nan (v : PValue) : replace_nan v ≠ PValue.nan := by
  cases v <;> simp [replace_nan]

/-- All metadata fields carried by a merged row have names drawn from the
taxonomy columns, never the join key. -/
def ext_fields_ok (tax : TaxonomyDF) (ext : List (String × PValue)) : Prop :=
  ∀ f ∈ ext, f.1 ∈ tax.tcols ∧ f.1 ≠ "primary_label"

theorem ext_fields_ok_nil (tax : TaxonomyDF) : ext_fields_ok tax [] :=
  fun f hf => absurd hf (List.not_mem_nil f)

theorem ext_fields_ok_null_fields (tax : TaxonomyDF) :
    ext_fields_ok tax (null_fields tax) := by
  intro f hf
  unfold null_fields at hf
  simp only [List.mem_map] at hf
  obtain ⟨c, hc, rfl⟩ := hf
  rw [List.mem_filter] at hc
  exact ⟨hc.1, bne_iff_ne.mp hc.2⟩

theorem ext_fields_ok_merge_fields (tax : TaxonomyDF) (r : List PValue) :
    ext_fields_ok tax (merge_fields tax r) := by
  intro f hf
  obtain ⟨a, b⟩ := f
  unfold merge_fields at hf
  rw [List.mem_filter] at hf
  exact ⟨(List.of_mem_zip hf.1).1, bne_iff_ne.mp hf.2⟩

theorem merge_block_fst (tax : TaxonomyDF) (lp : String × ℚ) :
    ∀ t ∈ merge_block tax lp, t.1 = lp.1 ∧ t.2.1 = lp.2 := by
  intro t ht
  simp only [merge_block] at ht
  split at ht
  · rw [List.mem_singleton] at ht
    subst ht
    exact ⟨rfl, rfl⟩
  · simp only [List.mem_map] at ht
    obtain ⟨r, _, rfl⟩ := ht
    exact ⟨rfl, rfl⟩

theorem merge_block_ext_ok (tax : TaxonomyDF) (lp : String × ℚ) :
    ∀ t ∈ merge_block tax lp, ext_fields_ok tax t.2.2 := by
  intro t ht
  simp only [merge_block] at ht
  split at ht
  · rw [List.mem_singleton] at ht
    subst ht
    exact ext_fields_ok_null_fields tax
  · simp only [List.mem_map] at ht
    obtain ⟨r, _, rfl⟩ := ht
    exact ext_fields_ok_merge_fields tax r

theorem merge_block_length_one (tax : TaxonomyDF) (lp : String × ℚ)
    (hkey : tax_match_count tax lp.1 ≤ 1) :
    (merge_block tax lp).length = 1 := by
  simp only [merge_block]
  unfold tax_match_count at hkey
  split
  · rfl
  · rename_i hne
    rw [List.length_map]
    have hpos : 0 < (tax.trows.filter (tax_row_matches tax lp.1)).length := by
      rcases Nat.eq_zero_or_pos (tax.trows.filter (tax_row_matches tax lp.1)).length with h0 | h
      · exact absurd (List.isEmpty_iff.mpr (List.length_eq_zero.mp h0)) hne
      · exact h
    omega

theorem merge_block_unmatched (tax : TaxonomyDF) (lp : String × ℚ)
    (h : tax_match_count tax lp.1 = 0) :
    merge_block tax lp = [(lp.1, lp.2, null_fields tax)] := by
  simp only [merge_block]
  unfold tax_match_count at h
  rw [List.length_eq_zero.mp h]
  rfl

theorem merge_left_proj (tax : TaxonomyDF)
    (hkey : ∀ l, tax_match_count tax l ≤ 1) :
    ∀ lps : List (String × ℚ),
      (merge_left tax lps).map (fun t => (t.1, t.2.1)) = lps
  | [] => rfl
  | lp :: lps => by
    unfold merge_left
    rw [List.flatMap_cons, List.map_append]
    have h1 : (merge_block tax lp).map (fun t => (t.1, t.2.1)) = [lp] := by
      have hone := merge_block_length_one tax lp (hkey lp.1)
      match hmb : merge_block tax lp with
      | [] => rw [hmb] at hone; simp at hone
      | t1 :: t2 :: ts => rw [hmb] at hone; simp at hone
      | [t] =>
        have hfst := merge_block_fst tax lp t (hmb ▸ List.mem_singleton_self t)
        simp [hfst.1, hfst.2]
    rw [h1]
    have h2 := merge_left_proj tax hkey lps
    unfold merge_left at h2
    rw [h2]
    rfl

theorem merge_left_ext_ok (tax : TaxonomyDF) (lps : List (String × ℚ)) :
    ∀ t ∈ merge_left tax lps, ext_fields_ok tax t.2.2 := by
  intro t ht
  obtain ⟨lp, _, htb⟩ := List.mem_flatMap.mp ht
  exact merge_block_ext_ok tax lp t htb

theorem get_field_assemble_label (t : String × ℚ × List (String × PValue)) :
    get_field (assemble_record t) "primary_label" = some (PValue.str t.1) :=
  rfl

theorem get_field_assemble_conf (t : String × ℚ × List (String × PValue)) :
    get_field (assemble_record t) "confidence" = some (PValue.num t.2.1) :=
  rfl

theorem find?_append_right {α : Type} (p : α → Bool) :
    ∀ (l1 l2 : List α), (∀ x ∈ l1, p x = false) →
      List.find? p (l1 ++ l2) = List.find? p l2
  | [], _, _ => rfl
  | x :: l1, l2, h => by
    rw [List.cons_append,
      List.find?_cons_of_neg _ (by simp [h x (List.mem_cons_self x l1)]),
      find?_append_right p l1 l2 (fun y hy => h y (List.mem_cons_of_mem _ hy))]

theorem get_field_assemble_pct (tax : TaxonomyDF)
    (t : String × ℚ × List (String × PValue))
    (hok : ext_fields_ok tax t.2.2) (hc2 : "confidence_pct" ∉ tax.tcols) :
    get_field (assemble_record t) "confidence_pct" =
      some (PValue.num (pd_round (t.2.1 * 100) 2)) := by
  unfold assemble_record get_field
  rw [List.map_append, List.map_append]
  simp only [List.map_cons, List.map_nil, List.cons_append, List.nil_append]
  rw [List.find?_cons_of_neg _ (by simp), List.find?_cons_of_neg _ (by simp),
    find?_append_right _ _ _ ?hskip]
  case hskip =>
    intro x hx
    rw [List.mem_map] at hx
    obtain ⟨f, hf, rfl⟩ := hx
    exact beq_eq_false_iff_ne.mpr (fun he => hc2 (he ▸ (hok f hf).1))
  rfl

/-- On a record whose metadata came from an unmatched left join, every
non-key taxonomy column is present with the value `None`. -/
theorem get_field_assemble_of_null_fields (tax : TaxonomyDF)
    (t : String × ℚ × List (String × PValue)) (c : String)
    (hnull : t.2.2 = null_fields tax)
    (hcm : c ∈ tax.tcols) (hcp : c ≠ "primary_label")
    (hc1 : "confidence" ∉ tax.tcols) :
    get_field (assemble_record t) c = some PValue.null := by
  have hfind : ∀ (l : List String) (l2 : List (String × PValue)), c ∈ l →
      ((List.map (fun x => (x, PValue.null)) l ++ l2).find?
        (fun f => f.1 == c)).map Prod.snd = some PValue.null := by
    intro l
    induction l with
    | nil => intro l2 h; exact absurd h (List.not_mem_nil c)
    | cons x l ih =>
      intro l2 h
      by_cases hx : x = c
      · subst hx
        rw [List.map_cons, List.cons_append,
          List.find?_cons_of_pos _ (by simp)]
        rfl
      · have hc : c ∈ l := by
          rcases List.mem_cons.mp h with he | hm
          · exact absurd he.symm hx
          · exact hm
        rw [List.map_cons, List.cons_append,
          List.find?_cons_of_neg _ (by simp [hx]), ih l2 hc]
  unfold assemble_record get_field
  rw [List.map_append, List.map_append]
  simp only [List.map_cons, List.map_nil, List.cons_append, List.nil_append]
  rw [List.find?_cons_of_neg _ ?hpl, List.find?_cons_of_neg _ ?hconf]
  case hpl =>
    intro hx
    exact hcp (Eq.symm (by simpa using hx))
  case hconf =>
    intro hx
    have he : "confidence" = c := by simpa using hx
    rw [← he] at hcm
    exact hc1 hcm
  rw [hnull]
  unfold null_fields
  rw [List.map_map]
  have hmm : ((fun f : String × PValue => (f.1, replace_nan f.2)) ∘
      fun c => (c, PValue.nan)) = fun x => (x, PValue.null) := rfl
  rw [hmm]
  exact hfind _ _ (List.mem_filter.mpr ⟨hcm, bne_iff_ne.mpr hcp⟩)

theorem no_nan_assemble (t : String × ℚ × List (String × PValue)) :
    ∀ f ∈ assemble_record t, f.2 ≠ PValue.nan := by
  intro f hf
  unfold assemble_record at hf
  rw [List.mem_map] at hf
  obtain ⟨x, _, rfl⟩ := hf
  exact replace_nan_ne_nan x.2

/-- Core facts about the emitted records, over any row list whose
projections recover the left frame and whose metadata field names come
from the taxonomy columns. -/
theorem build_core (tax : TaxonomyDF)
    (rows : List (String × ℚ × List (String × PValue)))
    (lps : List (String × ℚ))
    (hproj : rows.map (fun t => (t.1, t.2.1)) = lps)
    (hok : ∀ t ∈ rows, ext_fields_ok tax t.2.2)
    (hc2 : "confidence_pct" ∉ tax.tcols) :
    (rows.map assemble_record).length = lps.length ∧
    (rows.map assemble_record).map (fun r => get_field r "primary_label") =
      lps.map (fun lp => some (PValue.str lp.1)) ∧
    (rows.map assemble_record).map (fun r => get_field r "confidence") =
      lps.map (fun lp => some (PValue.num lp.2)) ∧
    (rows.map assemble_record).map (fun r => get_field r "confidence_pct") =
      lps.map (fun lp => some (PValue.num (pd_round (lp.2 * 100) 2))) := by
  have hlen : rows.length = lps.length := by
    rw [← hproj, List.length_map]
  refine ⟨by rw [List.length_map, hlen], ?_, ?_, ?_⟩
  · rw [List.map_map]
    have : (rows.map ((fun r => get_field r "primary_label") ∘ assemble_record)) =
        rows.map (fun t => some (PValue.str t.1)) :=
      List.map_congr_left (fun t _ => get_field_assemble_label t)
    rw [this, ← hproj, List.map_map]
    rfl
  · rw [List.map_map]
    have : (rows.map ((fun r => get_field r "confidence") ∘ assemble_record)) =
        rows.map (fun t => some (PValue.num t.2.1)) :=
      List.map_congr_left (fun t _ => get_field_assemble_conf t)
    rw [this, ← hproj, List.map_map]
    rfl
  · rw [List.map_map]
    have : (rows.map ((fun r => get_field r "confidence_pct") ∘ assemble_record)) =
        rows.map (fun t => some (PValue.num (pd_round (t.2.1 * 100) 2))) :=
      List.map_congr_left (fun t ht =>
        get_field_assemble_pct tax t (hok t ht) hc2)
    rw [this, ← hproj, List.map_map]
    rfl

/-- Claim C5: for every list of selected `(index, score)` pairs,
`build_results` returns exactly one record per selected pair, in the same
descending-confidence order produced by the selection step (the emitted
`confidence` column is exactly the selected score sequence), and each
record's `confidence_pct` equals `round(confidence * 100, 2)`.
Hypotheses: the taxonomy is a mapping (at most one row per label, as in
§4.2 of the design) and its metadata columns do not collide with the
reserved left-frame names `confidence` and `confidence_pct` — on a
colliding taxonomy pandas suffixes the merged columns to `_x`/`_y`
(making `df["confidence"]` raise) or the `confidence_pct` assignment
overwrites the merged column, behaviours outside this embedding. -/
theorem claim_C5_result_assembly (top_idx : List ℕ) (top_probs : List ℚ)
    (cl : List String) (tax : TaxonomyDF)
    (hlen : top_idx.length = top_probs.length)
    (hkey : ∀ l, tax_match_count tax l ≤ 1)
    (hc1 : "confidence" ∉ tax.tcols)
    (hc2 : "confidence_pct" ∉ tax.tcols) :
    (build_results top_idx top_probs cl tax).length = top_idx.length ∧
    (build_results top_idx top_probs cl tax).map
        (fun r => get_field r "confidence") =
      top_probs.map (fun q => some (PValue.num q)) ∧
    (build_results top_idx top_probs cl tax).map
        (fun r => get_field r "confidence_pct") =
      top_probs.map (fun q => some (PValue.num (pd_round (q * 100) 2))) := by
  have hlabs : (top_idx.map (label_of cl)).length = top_probs.length := by
    rw [List.length_map]; exact hlen
  have hlpslen : ((top_idx.map (label_of cl)).zip top_probs).length =
      top_idx.length := by
    rw [List.length_zip, List.length_map, hlen, min_self]
  have hsnd : ((top_idx.map (label_of cl)).zip top_probs).map Prod.snd =
      top_probs :=
    List.map_snd_zip _ _ (le_of_eq hlabs.symm)
  have happly : ∀ rows : List (String × ℚ × List (String × PValue)),
      rows.map (fun t => (t.1, t.2.1)) =
        (top_idx.map (label_of cl)).zip top_probs →
      (∀ t ∈ rows, ext_fields_ok tax t.2.2) →
      (rows.map assemble_record).length = top_idx.length ∧
      (rows.map assemble_record).map (fun r => get_field r "confidence") =
        top_probs.map (fun q => some (PValue.num q)) ∧
      (rows.map assemble_record).map (fun r => get_field r "confidence_pct") =
        top_probs.map (fun q => some (PValue.num (pd_round (q * 100) 2))) := by
    intro rows hproj hok
    obtain ⟨h1, _, h3, h4⟩ := build_core tax rows _ hproj hok hc2
    refine ⟨by rw [h1, hlpslen], ?_, ?_⟩
    · rw [h3]
      have hmm2 : ((top_idx.map (label_of cl)).zip top_probs).map
          (fun lp => some (PValue.num lp.2)) =
          (((top_idx.map (label_of cl)).zip top_probs).map Prod.snd).map
            (fun q => some (PValue.num q)) :=
        (List.map_map (fun q : ℚ => some (PValue.num q)) Prod.snd _).symm
      rw [hmm2, hsnd]
    · rw [h4]
      have hmm3 : ((top_idx.map (label_of cl)).zip top_probs).map
          (fun lp => some (PValue.num (pd_round (lp.2 * 100) 2))) =
          (((top_idx.map (label_of cl)).zip top_probs).map Prod.snd).map
            (fun q => some (PValue.num (pd_round (q * 100) 2))) :=
        (List.map_map (fun q : ℚ => some (PValue.num (pd_round (q * 100) 2)))
          Prod.snd _).symm
      rw [hmm3, hsnd]
  simp only [build_results]
  by_cases hcond : tax.trows ≠ [] ∧ "primary_label" ∈ tax.tcols
  · rw [if_pos hcond]
    exact happly _ (merge_left_proj tax hkey _) (merge_left_ext_ok tax _)
  · rw [if_neg hcond]
    refine happly _ ?_ ?_
    · rw [List.map_map]
      exact List.map_id _
    · intro t ht
      rw [List.mem_map] at ht
      obtain ⟨lp, _, rfl⟩ := ht
      exact ext_fields_ok_nil tax

/-- Witness for C5: two selected pairs, a one-row taxonomy, one matched
and one out-of-range label. -/
theorem claim_C5_result_assembly_witness :
    (([0, 5] : List ℕ).length = ([1, 0] : List ℚ).length ∧
      (∀ l, tax_match_count
        (TaxonomyDF.mk ["primary_label", "common_name"]
          [[PValue.str "aa", PValue.str "Sparrow"]]) l ≤ 1) ∧
      "confidence" ∉ (TaxonomyDF.mk ["primary_label", "common_name"]
        [[PValue.str "aa", PValue.str "Sparrow"]]).tcols ∧
      "confidence_pct" ∉ (TaxonomyDF.mk ["primary_label", "common_name"]
        [[PValue.str "aa", PValue.str "Sparrow"]]).tcols) ∧
    ((build_results [0, 5] [1, 0] ["aa"]
        (TaxonomyDF.mk ["primary_label", "common_name"]
          [[PValue.str "aa", PValue.str "Sparrow"]])).length =
      ([0, 5] : List ℕ).length ∧
    (build_results [0, 5] [1, 0] ["aa"]
        (TaxonomyDF.mk ["primary_label", "common_name"]
          [[PValue.str "aa", PValue.str "Sparrow"]])).map
        (fun r => get_field r "confidence") =
      ([1, 0] : List ℚ).map (fun q => some (PValue.num q)) ∧
    (build_results [0, 5] [1, 0] ["aa"]
        (TaxonomyDF.mk ["primary_label", "common_name"]
          [[PValue.str "aa", PValue.str "Sparrow"]])).map
        (fun r => get_field r "confidence_pct") =
      ([1, 0] : List ℚ).map
        (fun q => some (PValue.num (pd_round (q * 100) 2)))) :=
  ⟨⟨rfl,
    fun l => by
      simpa [tax_match_count] using
        List.length_filter_le
          (tax_row_matches (TaxonomyDF.mk ["primary_label", "common_name"]
            [[PValue.str "aa", PValue.str "Sparrow"]]) l)
          [[PValue.str "aa", PValue.str "Sparrow"]],
    by decide, by decide⟩,
    claim_C5_result_assembly [0, 5] [1, 0] ["aa"]
      (TaxonomyDF.mk ["primary_label", "common_name"]
        [[PValue.str "aa", PValue.str "Sparrow"]])
      rfl
      (fun l => by
        simpa [tax_match_count] using
          List.length_filter_le
            (tax_row_matches (TaxonomyDF.mk ["primary_label", "common_name"]
              [[PValue.str "aa", PValue.str "Sparrow"]]) l)
            [[PValue.str "aa", PValue.str "Sparrow"]])
      (by decide) (by decide)⟩

/-- Claim C6: `build_results` handles all missing data without dropping
records or raising: no record is dropped (one record per selected pair);
every selected index out of range of the class index yields the
placeholder label `class_<index>`; every label with no matching taxonomy
row appears in the output with every non-key taxonomy column present and
equal to `None` (not missing-key); and every `NaN` is converted to `None`,
so the output never contains `NaN`.  Hypotheses: the taxonomy is a
mapping (at most one row per label) whose metadata columns do not
collide with the reserved left-frame names `confidence` and
`confidence_pct` — on a colliding taxonomy pandas suffixes the merged
columns to `_x`/`_y` (making `df["confidence"]` raise) or the
`confidence_pct` assignment overwrites the merged column with the
computed number, behaviours outside this embedding. -/
theorem claim_C6_missing_data (top_idx : List ℕ) (top_probs : List ℚ)
    (cl : List String) (tax : TaxonomyDF)
    (hlen : top_idx.length = top_probs.length)
    (hactive : tax.trows ≠ [] ∧ "primary_label" ∈ tax.tcols)
    (hkey : ∀ l, tax_match_count tax l ≤ 1)
    (hc1 : "confidence" ∉ tax.tcols)
    (hc2 : "confidence_pct" ∉ tax.tcols) :
    (build_results top_idx top_probs cl tax).length = top_idx.length ∧
    (build_results top_idx top_probs cl tax).map
        (fun r => get_field r "primary_label") =
      top_idx.map (fun i => some (PValue.str (label_of cl i))) ∧
    (∀ i, cl.length ≤ i → label_of cl i = "class_" ++ toString i) ∧
    (∀ r ∈ build_results top_idx top_probs cl tax, ∀ l,
      get_field r "primary_label" = some (PValue.str l) →
      tax_match_count tax l = 0 →
      ∀ c ∈ tax.tcols, c ≠ "primary_label" → get_field r c = some PValue.null) ∧
    (∀ r ∈ build_results top_idx top_probs cl tax, ∀ f ∈ r,
      f.2 ≠ PValue.nan) := by
  have hlabs : (top_idx.map (label_of cl)).length = top_probs.length := by
    rw [List.length_map]; exact hlen
  have hproj := merge_left_proj tax hkey ((top_idx.map (label_of cl)).zip top_probs)
  have hfst : ((top_idx.map (label_of cl)).zip top_probs).map Prod.fst =
      top_idx.map (label_of cl) :=
    List.map_fst_zip _ _ (le_of_eq hlabs)
  have hbuild : build_results top_idx top_probs cl tax =
      (merge_left tax ((top_idx.map (label_of cl)).zip top_probs)).map
        assemble_record := by
    simp only [build_results]
    rw [if_pos hactive]
  refine ⟨?_, ?_, ?_, ?_, ?_⟩
  · rw [hbuild, List.length_map]
    have hml := congrArg List.length hproj
    rw [List.length_map] at hml
    rw [hml, List.length_zip, List.length_map, hlen, min_self]
  · rw [hbuild, List.map_map]
    have hcg : (merge_left tax ((top_idx.map (label_of cl)).zip top_probs)).map
        ((fun r => get_field r "primary_label") ∘ assemble_record) =
        (merge_left tax ((top_idx.map (label_of cl)).zip top_probs)).map
          (fun t => some (PValue.str t.1)) :=
      List.map_congr_left (fun t _ => get_field_assemble_label t)
    rw [hcg]
    have hstep : (merge_left tax ((top_idx.map (label_of cl)).zip top_probs)).map
        (fun t => some (PValue.str t.1)) =
        ((merge_left tax ((top_idx.map (label_of cl)).zip top_probs)).map
          (fun t => (t.1, t.2.1))).map (fun lp => some (PValue.str lp.1)) := by
      rw [List.map_map]
      rfl
    rw [hstep, hproj]
    have hstep2 : ((top_idx.map (label_of cl)).zip top_probs).map
        (fun lp => some (PValue.str lp.1)) =
        (((top_idx.map (label_of cl)).zip top_probs).map Prod.fst).map
          (fun s => some (PValue.str s)) :=
      (List.map_map (fun s => some (PValue.str s)) Prod.fst _).symm
    rw [hstep2, hfst, List.map_map]
    rfl
  · intro i hi
    unfold label_of
    rw [if_neg (by omega)]
  · intro r hr l hl hcount c hcm hcp
    rw [hbuild, List.mem_map] at hr
    obtain ⟨t, ht, rfl⟩ := hr
    rw [get_field_assemble_label t] at hl
    have htl : t.1 = l := by
      have := Option.some.injEq _ _ ▸ hl
      simpa using hl
    unfold merge_left at ht
    obtain ⟨lp, _, htb⟩ := List.mem_flatMap.mp ht
    have hfst2 := merge_block_fst tax lp t htb
    have hcnt : tax_match_count tax lp.1 = 0 := by
      rw [← hfst2.1, htl]
      exact hcount
    rw [merge_block_unmatched tax lp hcnt, List.mem_singleton] at htb
    have hnull : t.2.2 = null_fields tax := by rw [htb]
    exact get_field_assemble_of_null_fields tax t c hnull hcm hcp hc1
  · intro r hr f hf
    rw [hbuild, List.mem_map] at hr
    obtain ⟨t, _, rfl⟩ := hr
    exact no_nan_assemble t f hf

/-- Witness for C6: same concrete instance as the C5 witness; index `5`
is out of range of the one-entry class index and its placeholder label
`class_5` has no taxonomy row. -/
theorem claim_C6_missing_data_witness :
    (([0, 5] : List ℕ).length = ([1, 0] : List ℚ).length ∧
      ((TaxonomyDF.mk ["primary_label", "common_name"]
          [[PValue.str "aa", PValue.str "Sparrow"]]).trows ≠ [] ∧
        "primary_label" ∈ (TaxonomyDF.mk ["primary_label", "common_name"]
          [[PValue.str "aa", PValue.str "Sparrow"]]).tcols) ∧
      (∀ l, tax_match_count
        (TaxonomyDF.mk ["primary_label", "common_name"]
          [[PValue.str "aa", PValue.str "Sparrow"]]) l ≤ 1) ∧
      "confidence" ∉ (TaxonomyDF.mk ["primary_label", "common_name"]
        [[PValue.str "aa", PValue.str "Sparrow"]]).tcols ∧
      "confidence_pct" ∉ (TaxonomyDF.mk ["primary_label", "common_name"]
        [[PValue.str "aa", PValue.str "Sparrow"]]).tcols) ∧
    ((build_results [0, 5] [1, 0] ["aa"]
        (TaxonomyDF.mk ["primary_label", "common_name"]
          [[PValue.str "aa", PValue.str "Sparrow"]])).length =
      ([0, 5] : List ℕ).length ∧
    (build_results [0, 5] [1, 0] ["aa"]
        (TaxonomyDF.mk ["primary_label", "common_name"]
          [[PValue.str "aa", PValue.str "Sparrow"]])).map
        (fun r => get_field r "primary_label") =
      ([0, 5] : List ℕ).map (fun i => some (PValue.str (label_of ["aa"] i))) ∧
    (∀ i, (["aa"] : List String).length ≤ i →
      label_of ["aa"] i = "class_" ++ toString i) ∧
    (∀ r ∈ build_results [0, 5] [1, 0] ["aa"]
        (TaxonomyDF.mk ["primary_label", "common_name"]
          [[PValue.str "aa", PValue.str "Sparrow"]]), ∀ l,
      get_field r "primary_label" = some (PValue.str l) →
      tax_match_count (TaxonomyDF.mk ["primary_label", "common_name"]
        [[PValue.str "aa", PValue.str "Sparrow"]]) l = 0 →
      ∀ c ∈ (TaxonomyDF.mk ["primary_label", "common_name"]
        [[PValue.str "aa", PValue.str "Sparrow"]]).tcols,
        c ≠ "primary_label" → get_field r c = some PValue.null) ∧
    (∀ r ∈ build_results [0, 5] [1, 0] ["aa"]
        (TaxonomyDF.mk ["primary_label", "common_name"]
          [[PValue.str "aa", PValue.str "Sparrow"]]), ∀ f ∈ r,
      f.2 ≠ PValue.nan)) :=
  ⟨⟨rfl, by decide,
    fun l => by
      simpa [tax_match_count] using
        List.length_filter_le
          (tax_row_matches (TaxonomyDF.mk ["primary_label", "common_name"]
            [[PValue.str "aa", PValue.str "Sparrow"]]) l)
          [[PValue.str "aa", PValue.str "Sparrow"]],
    by decide, by decide⟩,
    claim_C6_missing_data [0, 5] [1, 0] ["aa"]
      (TaxonomyDF.mk ["primary_label", "common_name"]
        [[PValue.str "aa", PValue.str "Sparrow"]])
      rfl (by decide)
      (fun l => by
        simpa [tax_match_count] using
          List.length_filter_le
            (tax_row_matches (TaxonomyDF.mk ["primary_label", "common_name"]
              [[PValue.str "aa", PValue.str "Sparrow"]]) l)
            [[PValue.str "aa", PValue.str "Sparrow"]])
      (by decide) (by decide)⟩

end EcoSonic
